import Mathlib

/-!
Verification of the batch-transfer core
(`packages/uniswap/src/features/transactions/swap/hooks/useBatchTransfer.ts`).

Shallow embedding conventions:
* JS `BigInt` values (balances, wei amounts, token ids) are `Nat`
  (all values in the code are non-negative).
* JS `number` (float) USD values are embedded as `ℚ`; only their sign and
  ordering are ever consumed by the code paths modelled here.
* JS hex strings are embedded as `List Char` (so casing is preserved, which
  matters: `toLowerCase` is applied to the target address but not to the
  owner address).
* `Array.prototype.sort` with a numeric comparator `cmp` is embedded as the
  stable `List.mergeSort` with the boolean relation `cmp a b ≤ 0`
  (ECMAScript requires sort stability).
-/

namespace BatchTransfer

/-! ### Hex strings (`BigInt.toString(16)`, `padStart`, ABI words) -/

/-- Lowercase hex character for a digit `0..15`, as produced by
`BigInt.prototype.toString(16)`. -/
def hexDigitChar (d : Nat) : Char :=
  if d < 10 then Char.ofNat (48 + d) else Char.ofNat (87 + d)

/-- Numeric value of a hex character; both cases accepted (standard hex
parsing is case-insensitive); non-hex characters map to 0. -/
def hexCharToDigit (c : Char) : Nat :=
  if 48 ≤ c.toNat ∧ c.toNat ≤ 57 then c.toNat - 48
  else if 97 ≤ c.toNat ∧ c.toNat ≤ 102 then c.toNat - 87
  else if 65 ≤ c.toNat ∧ c.toNat ≤ 70 then c.toNat - 55
  else 0

/-- Value of a big-endian base-16 digit list. -/
def digitsValue (l : List Nat) : Nat := l.foldl (fun a d => 16 * a + d) 0

/-- Value of a big-endian hex character string. -/
def hexValue (l : List Char) : Nat := digitsValue (l.map hexCharToDigit)

/-- Fuel-driven big-endian base-16 digits of `n` (structural recursion so
that concrete instances evaluate in the kernel). -/
def natToHexDigitsAux : Nat → Nat → List Nat
  | 0, _ => []
  | fuel + 1, n =>
    if n < 16 then [n] else natToHexDigitsAux fuel (n / 16) ++ [n % 16]

/-- Big-endian base-16 digits of `n`, minimal representation;
`0 ↦ [0]` (matching `BigInt(0).toString(16) = "0"`). -/
def natToHexDigits (n : Nat) : List Nat := natToHexDigitsAux (n + 1) n

/-- `BigInt.prototype.toString(16)`: lowercase minimal hex string. -/
def natToHexChars (n : Nat) : List Char := (natToHexDigits n).map hexDigitChar

/-- JS `s.padStart(64, '0')`. -/
def padStart64 (l : List Char) : List Char := List.replicate (64 - l.length) '0' ++ l

theorem digitsValue_foldl (l : List Nat) :
    ∀ a : Nat, l.foldl (fun a d => 16 * a + d) a = a * 16 ^ l.length + digitsValue l := by
  induction l with
  | nil => intro a; simp [digitsValue]
  | cons d l ih =>
    intro a
    simp only [List.foldl_cons, List.length_cons, digitsValue]
    rw [ih (16 * a + d), ih (16 * 0 + d)]
    ring

theorem digitsValue_append (l₁ l₂ : List Nat) :
    digitsValue (l₁ ++ l₂) = digitsValue l₁ * 16 ^ l₂.length + digitsValue l₂ := by
  simp only [digitsValue, List.foldl_append]
  rw [digitsValue_foldl l₂]
  rfl

theorem digitsValue_replicate_zero (m : Nat) :
    digitsValue (List.replicate m 0) = 0 := by
  induction m with
  | zero => rfl
  | succ m ih =>
    simp only [List.replicate_succ, digitsValue, List.foldl_cons]
    simpa [digitsValue] using ih

theorem hexCharToDigit_hexDigitChar {d : Nat} (h : d < 16) :
    hexCharToDigit (hexDigitChar d) = d := by
  interval_cases d <;> decide

theorem hexCharToDigit_zeroChar : hexCharToDigit '0' = 0 := by decide

theorem digitsValue_natToHexDigitsAux :
    ∀ (fuel n : Nat), n < fuel → digitsValue (natToHexDigitsAux fuel n) = n
  | fuel + 1, n, h => by
    simp only [natToHexDigitsAux]
    split
    · simp [digitsValue]
    · rename_i hn
      rw [digitsValue_append]
      have hd : n / 16 < n := Nat.div_lt_self (by omega) (by omega)
      rw [digitsValue_natToHexDigitsAux fuel (n / 16) (by omega)]
      simp only [digitsValue, List.foldl_cons, List.foldl_nil, List.length_cons,
        List.length_nil, pow_one, Nat.zero_add, pow_zero]
      omega

theorem digitsValue_natToHexDigits (n : Nat) :
    digitsValue (natToHexDigits n) = n :=
  digitsValue_natToHexDigitsAux (n + 1) n (by omega)

theorem natToHexDigitsAux_lt :
    ∀ (fuel n : Nat), n < fuel → ∀ d ∈ natToHexDigitsAux fuel n, d < 16
  | fuel + 1, n, h => by
    simp only [natToHexDigitsAux]
    split
    · rename_i hn
      intro d hd
      simp at hd
      omega
    · rename_i hn
      intro d hd
      rcases List.mem_append.mp hd with h₁ | h₂
      · have hlt : n / 16 < n := Nat.div_lt_self (by omega) (by omega)
        exact natToHexDigitsAux_lt fuel (n / 16) (by omega) d h₁
      · simp at h₂
        omega

theorem natToHexDigits_lt (n : Nat) : ∀ d ∈ natToHexDigits n, d < 16 :=
  natToHexDigitsAux_lt (n + 1) n (by omega)

theorem hexValue_natToHexChars (n : Nat) : hexValue (natToHexChars n) = n := by
  have h : (natToHexDigits n).map (fun d => hexCharToDigit (hexDigitChar d)) =
      (natToHexDigits n).map id := by
    apply List.map_congr_left
    intro d hd
    exact hexCharToDigit_hexDigitChar (natToHexDigits_lt n d hd)
  simp only [hexValue, natToHexChars, List.map_map, Function.comp_def]
  rw [h]
  simpa using digitsValue_natToHexDigits n

theorem natToHexDigitsAux_length_le :
    ∀ (fuel n k : Nat), n < fuel → n < 16 ^ k → 0 < k →
      (natToHexDigitsAux fuel n).length ≤ k
  | fuel + 1, n, k, h, hk, hk0 => by
    simp only [natToHexDigitsAux]
    split
    · simpa using hk0
    · rename_i hn
      have hd : n / 16 < n := Nat.div_lt_self (by omega) (by omega)
      rcases k with _ | _ | k
      · omega
      · simp at hk; omega
      · have hdiv : n / 16 < 16 ^ (k + 1) := by
          rw [Nat.div_lt_iff_lt_mul (by omega)]
          calc n < 16 ^ (k + 2) := hk
            _ = 16 ^ (k + 1) * 16 := by ring
        have := natToHexDigitsAux_length_le fuel (n / 16) (k + 1) (by omega) hdiv (by omega)
        simp only [List.length_append, List.length_cons, List.length_nil]
        omega

theorem natToHexChars_length_le {n k : Nat} (h : n < 16 ^ k) (hk : 0 < k) :
    (natToHexChars n).length ≤ k := by
  simp only [natToHexChars, List.length_map]
  exact natToHexDigitsAux_length_le (n + 1) n k (by omega) h hk

theorem hexValue_padStart64 (l : List Char) :
    hexValue (padStart64 l) = hexValue l := by
  simp only [padStart64, hexValue, List.map_append, List.map_replicate,
    hexCharToDigit_zeroChar, digitsValue_append, digitsValue_replicate_zero]
  omega

theorem padStart64_length {l : List Char} (h : l.length ≤ 64) :
    (padStart64 l).length = 64 := by
  simp only [padStart64, List.length_append, List.length_replicate]
  omega

/-- The 32-byte ABI word encoding an unsigned integer, exactly as the code
builds it: `v.toString(16).padStart(64, '0')`. -/
def uint256Field (n : Nat) : List Char := padStart64 (natToHexChars n)

theorem uint256Field_length {n : Nat} (h : n < 16 ^ 64) :
    (uint256Field n).length = 64 :=
  padStart64_length (natToHexChars_length_le h (by omega))

theorem hexValue_uint256Field (n : Nat) : hexValue (uint256Field n) = n := by
  rw [uint256Field, hexValue_padStart64, hexValue_natToHexChars]

/-! ### Gas budget (`executeBatchTransfer`, gas calculation block)

The source computes
`totalEstimatedGas = base + native + perErc20·erc20Count + perErc721·erc721Count
 + perErc1155·erc1155Count + safety`
with `erc20Count = Math.min(validERC20AssetsForGas.length, MAX_PRECHECK_COUNT)`, and
`gasPriceWei = BigInt(Math.max(1, Math.round(baseGwei * 1e9))) * 12n / 10n`.
-/

def MAX_BATCH_SIZE : Nat := 10

def MAX_PRECHECK_COUNT : Nat := 20

/-- The hardcoded `chainGasPriceGwei` table, held in hundredths of gwei so that
it is an exact integer table (`{1: 4, 137: 80, 56: 0.3, 42161: 0.5, 8453: 0.5,
10: 0.5, 143: 150, 11155111: 0.02}`, fallback `?? 0.5`). -/
def chainGasPriceCentiGwei (chainId : Nat) : Nat :=
  if chainId = 1 then 400
  else if chainId = 137 then 8000
  else if chainId = 56 then 30
  else if chainId = 42161 then 50
  else if chainId = 8453 then 50
  else if chainId = 10 then 50
  else if chainId = 143 then 15000
  else if chainId = 11155111 then 2
  else 50

/-- `Math.round(baseGwei * 1_000_000_000)`: for every value of the table above
(and the 0.5 fallback) the double-precision product rounds to exactly
`centiGwei · 10^7`, so the conversion is represented exactly. -/
def chainGasPriceBaseWei (chainId : Nat) : Nat :=
  chainGasPriceCentiGwei chainId * 10000000

/-- `let gasPriceWei = BigInt(Math.max(1, baseWeiRounded)); gasPriceWei = gasPriceWei * 12n / 10n`
(the 20% buffer; BigInt division truncates). -/
def gasPriceWei (chainId : Nat) : Nat :=
  max 1 (chainGasPriceBaseWei chainId) * 12 / 10

/-- `Math.min(validERC20AssetsForGas.length, MAX_PRECHECK_COUNT)`. -/
def erc20TransfersCount (erc20Len : Nat) : Nat := min erc20Len MAX_PRECHECK_COUNT

/-- `totalEstimatedGas` from the `defaults` table
`{base: 46000, native: 21000, safety: 20000, perErc20: 55000, perErc721: 60000, perErc1155: 60000}`. -/
def totalEstimatedGas (erc20Count erc721Count erc1155Count : Nat) : Nat :=
  46000 + 21000 + 55000 * erc20Count + 60000 * erc721Count + 60000 * erc1155Count + 20000

/-- `totalGasCost = totalEstimatedGas * gasPriceWei`, taking the raw (uncapped)
ERC-20 candidate count as the code does before applying `Math.min`. -/
def totalGasCost (chainId erc20Len erc721Count erc1155Count : Nat) : Nat :=
  totalEstimatedGas (erc20TransfersCount erc20Len) erc721Count erc1155Count *
    gasPriceWei chainId

/-- Floor-at-1-wei commutes with the 20% buffer, so the code (floor before
buffer) and the spec sentence (buffer before floor) agree for every base. -/
theorem max_one_buffer_comm (w : Nat) :
    max 1 w * 12 / 10 = max 1 (w * 12 / 10) := by
  rcases Nat.eq_zero_or_pos w with h | h
  · subst h; rfl
  · have h1 : max 1 w = w := by omega
    have h2 : 1 ≤ w * 12 / 10 := by omega
    omega

/-! ### Transaction objects and the native-coin transfer (step 2.1) -/

/-- The `type` tags of the transaction objects pushed into `allTransactions`. -/
inductive TxKind where
  | nativeTransfer
  | erc20Transfer
  | erc721Transfer
  | erc1155Transfer
deriving DecidableEq, Repr

/-- JS `toLowerCase` on a hex string. -/
def toLowerStr (l : List Char) : List Char := l.map Char.toLower

/-- A transaction object as built by `executeBatchTransfer`
(`{type, to, value, data?, usd_value, balance?}`; the source field `to` is
named `toAddr` here since `to` is reserved; the `description` string is
presentational and omitted; `balance` is only populated on ERC-20 entries and
defaults to 0 elsewhere, faithful to `undefined` never being read). -/
structure BatchTx where
  txType : TxKind
  toAddr : List Char
  value : Nat
  data : Option (List Char)
  usd_value : ℚ
  balance : Nat
deriving DecidableEq, Repr

/-- Step 2.1: the native transfer block. Pushes one transfer of
`nativeBalance - totalGasCost` iff `nativeBalance > totalGasCost`; the USD
value mirrors the ratio / price fallback computation (floats as ℚ). -/
def nativeTransfers (target : List Char) (nativeBalance totalGasCostWei : Nat)
    (nativeTokenUsdValue nativeTokenPrice : ℚ) : List BatchTx :=
  if totalGasCostWei < nativeBalance then
    let transferAmount := nativeBalance - totalGasCostWei
    let nativeUsdValue : ℚ :=
      if 0 < nativeTokenUsdValue then
        if 0 < nativeBalance then
          nativeTokenUsdValue * ((transferAmount : ℚ) / (nativeBalance : ℚ))
        else nativeTokenUsdValue
      else if 0 < nativeTokenPrice then
        ((transferAmount : ℚ) / ((10 : ℚ) ^ 18)) * nativeTokenPrice
      else 0
    [{ txType := .nativeTransfer, toAddr := target, value := transferAmount,
       data := none, usd_value := nativeUsdValue, balance := 0 }]
  else []

/-! ### Sorting and capping (steps 3 and 5)

Both sorts call `Array.prototype.sort` with a numeric comparator; ECMAScript
sort is stable, embedded via the stable `List.mergeSort` over `cmp a b ≤ 0`. -/

/-- The final comparator (step 5): `(a, b) => valueB - valueA` only. -/
def finalSortLE (a b : BatchTx) : Bool := decide (b.usd_value ≤ a.usd_value)

/-- `allValidTransactions.sort(...)` of step 5. -/
def sortByUsdDesc (l : List BatchTx) : List BatchTx := l.mergeSort finalSortLE

/-- `allValidTransactions.slice(0, MAX_BATCH_SIZE)` after the final sort. -/
def finalTransactions (l : List BatchTx) : List BatchTx :=
  (sortByUsdDesc l).take MAX_BATCH_SIZE

/-- An ERC-20 asset as consumed by step 3 (`token_address`, normalized integer
`balance`, API `usd_value`; float comparisons embedded in ℚ). -/
structure ERC20Asset where
  token_address : List Char
  symbol : List Char
  decimals : Nat
  balance : Nat
  usd_value : ℚ
deriving DecidableEq, Repr

/-- The provisional ERC-20 comparator (step 3): value-descending when both
positive, any positive value before non-positive ones, balance-descending
otherwise. -/
def erc20Cmp (a b : ERC20Asset) : ℚ :=
  if 0 < a.usd_value ∧ 0 < b.usd_value then b.usd_value - a.usd_value
  else if 0 < a.usd_value then -1
  else if 0 < b.usd_value then 1
  else (b.balance : ℚ) - (a.balance : ℚ)

def erc20LE (a b : ERC20Asset) : Bool := decide (erc20Cmp a b ≤ 0)

/-- `validERC20Assets.sort(...)` of step 3. -/
def sortErc20Provisional (l : List ERC20Asset) : List ERC20Asset :=
  l.mergeSort erc20LE

/-- `validERC20Assets.slice(0, MAX_PRECHECK_COUNT)`. -/
def erc20ToPrecheck (l : List ERC20Asset) : List ERC20Asset :=
  (sortErc20Provisional l).take MAX_PRECHECK_COUNT

/-! ### Precheck gate (step 3.2) and merge (step 4) -/

/-- The ERC-20 precheck loop: each candidate is simulated via
`publicClient.call`; success keeps it, failure silently drops it. The chain
oracle is a parameter `ok`. The loop is an in-order filter. -/
def precheckERC20 (ok : BatchTx → Bool) (pool : List BatchTx) : List BatchTx :=
  pool.filter ok

/-- Step 4: `[...nativeTransfersFromAll, ...validERC20Transactions,
...erc721Transfers, ...erc1155Transfers]`. -/
def mergeValidTransactions (natives erc20s e721s e1155s : List BatchTx) : List BatchTx :=
  natives ++ erc20s ++ e721s ++ e1155s

/-! ### Sort-relation facts needed for `mergeSort` -/

theorem finalSortLE_trans (a b c : BatchTx) (h₁ : finalSortLE a b) (h₂ : finalSortLE b c) :
    finalSortLE a c := by
  simp only [finalSortLE, decide_eq_true_eq] at h₁ h₂ ⊢
  exact le_trans h₂ h₁

theorem finalSortLE_total (a b : BatchTx) : finalSortLE a b || finalSortLE b a := by
  simp only [finalSortLE, Bool.or_eq_true, decide_eq_true_eq]
  exact le_total b.usd_value a.usd_value

theorem sortByUsdDesc_sorted (l : List BatchTx) :
    List.Pairwise (fun a b => b.usd_value ≤ a.usd_value) (sortByUsdDesc l) := by
  have h := List.sorted_mergeSort finalSortLE_trans finalSortLE_total l
  exact h.imp (fun hab => by simpa [finalSortLE] using hab)

theorem sortByUsdDesc_perm (l : List BatchTx) : (sortByUsdDesc l).Perm l :=
  List.mergeSort_perm l finalSortLE

/-- Claim C1: when the native balance strictly exceeds the computed reserve,
exactly one native transfer is emitted, with amount `rawBalance − reserveWei`;
a positive balance not exceeding the reserve emits no native transfer at all;
and with balance 1.000000 ETH and reserve 0.001000 ETH the emitted amount is
exactly 0.999000 ETH (999·10¹⁵ wei). -/
theorem native_transfer_amount (target : List Char) (b r : Nat) (u p : ℚ) :
    (r < b →
      (nativeTransfers target b r u p).length = 1 ∧
      ∀ tx ∈ nativeTransfers target b r u p,
        tx.txType = TxKind.nativeTransfer ∧ tx.value = b - r ∧
        tx.toAddr = target ∧ tx.data = none) ∧
    (0 < b → b ≤ r → nativeTransfers target b r u p = []) ∧
    (nativeTransfers target (10 ^ 18) (10 ^ 15) u p).map BatchTx.value =
      [999 * 10 ^ 15] := by
  refine ⟨fun h => ?_, fun hb hr => ?_, ?_⟩
  · simp only [nativeTransfers, if_pos h]
    constructor
    · rfl
    · intro tx htx
      simp only [List.mem_singleton] at htx
      subst htx
      exact ⟨rfl, rfl, rfl, rfl⟩
  · simp only [nativeTransfers, if_neg (by omega : ¬ r < b)]
  · have hlt : (10 : Nat) ^ 15 < 10 ^ 18 := by norm_num
    simp only [nativeTransfers, if_pos hlt, List.map_cons, List.map_nil]
    norm_num

/-- Witness for C1 at balance = 10¹⁸ wei, reserve = 10¹⁵ wei. -/
theorem native_transfer_amount_spot :
    (nativeTransfers [] (10 ^ 18) (10 ^ 15) 0 0).length = 1 ∧
    ∀ tx ∈ nativeTransfers [] (10 ^ 18) (10 ^ 15) 0 0,
      tx.txType = TxKind.nativeTransfer ∧ tx.value = 10 ^ 18 - 10 ^ 15 ∧
      tx.toAddr = [] ∧ tx.data = none :=
  (native_transfer_amount [] (10 ^ 18) (10 ^ 15) 0 0).1 (by norm_num)

/-- Claim C2: the gas reserve equals
`(fixed + native + erc20·55000 + erc721·60000 + erc1155·60000 + safety) × gasPriceWei`
with the ERC-20 count capped at the precheck-pool limit, the per-chain price
converted to wei, inflated by 20% and floored at 1 wei (with the 0.5 gwei
fallback for chains absent from the table), and the function is
deterministic in its inputs. -/
theorem gas_reserve_formula (chainId erc20Len erc721Count erc1155Count : Nat) :
    totalGasCost chainId erc20Len erc721Count erc1155Count =
      (46000 + 21000 + min erc20Len 20 * 55000 + erc721Count * 60000 +
        erc1155Count * 60000 + 20000) *
        max 1 (chainGasPriceBaseWei chainId * 12 / 10) ∧
    (chainId ≠ 1 → chainId ≠ 137 → chainId ≠ 56 → chainId ≠ 42161 → chainId ≠ 8453 →
      chainId ≠ 10 → chainId ≠ 143 → chainId ≠ 11155111 →
      gasPriceWei chainId = 600000000) ∧
    (∀ c₂ a₂ b₂ d₂, chainId = c₂ → erc20Len = a₂ → erc721Count = b₂ → erc1155Count = d₂ →
      totalGasCost chainId erc20Len erc721Count erc1155Count = totalGasCost c₂ a₂ b₂ d₂) := by
  refine ⟨?_, ?_, ?_⟩
  · unfold totalGasCost totalEstimatedGas erc20TransfersCount gasPriceWei MAX_PRECHECK_COUNT
    rw [max_one_buffer_comm]
    ring
  · intro h1 h2 h3 h4 h5 h6 h7 h8
    simp [gasPriceWei, chainGasPriceBaseWei, chainGasPriceCentiGwei, h1, h2, h3, h4, h5, h6, h7, h8]
  · intro c₂ a₂ b₂ d₂ hc ha hb hd
    subst hc; subst ha; subst hb; subst hd
    rfl

/-- Witness for C2 at the absent chain id 999: fallback 0.5 gwei → wei → 20%
buffer gives 600000000 wei per gas unit. -/
theorem gas_reserve_formula_spot : gasPriceWei 999 = 600000000 :=
  (gas_reserve_formula 999 0 0 0).2.1 (by decide) (by decide) (by decide) (by decide)
    (by decide) (by decide) (by decide) (by decide)

/-- Claim C3: with more than `MAX_BATCH_SIZE` eligible candidates, the final
output is exactly the cap-many highest-`usd_value` candidates in descending
order, and everything beyond the cap is dropped (the kept prefix plus the
dropped suffix is a permutation of the input, and every dropped candidate has
`usd_value` no greater than every kept one). -/
theorem final_cap_selects_top_batch (l : List BatchTx) (h : MAX_BATCH_SIZE < l.length) :
    (finalTransactions l).length = MAX_BATCH_SIZE ∧
    List.Pairwise (fun a b => b.usd_value ≤ a.usd_value) (finalTransactions l) ∧
    (finalTransactions l ++ (sortByUsdDesc l).drop MAX_BATCH_SIZE).Perm l ∧
    (∀ a ∈ finalTransactions l, ∀ b ∈ (sortByUsdDesc l).drop MAX_BATCH_SIZE,
      b.usd_value ≤ a.usd_value) := by
  have hsem := sortByUsdDesc_sorted l
  have hlen : (sortByUsdDesc l).length = l.length := (sortByUsdDesc_perm l).length_eq
  have hsplit : finalTransactions l ++ (sortByUsdDesc l).drop MAX_BATCH_SIZE =
      sortByUsdDesc l := List.take_append_drop _ _
  refine ⟨?_, ?_, ?_, ?_⟩
  · simp only [finalTransactions, List.length_take]
    omega
  · exact hsem.sublist (List.take_sublist _ _)
  · rw [hsplit]; exact sortByUsdDesc_perm l
  · have hp : List.Pairwise (fun a b => b.usd_value ≤ a.usd_value)
        (finalTransactions l ++ (sortByUsdDesc l).drop MAX_BATCH_SIZE) := by
      rw [hsplit]; exact hsem
    exact fun a ha b hb => (List.pairwise_append.mp hp).2.2 a ha b hb

/-- Fifty eligible candidates with pairwise distinct USD values. -/
def fiftyCandidates : List BatchTx :=
  (List.range 50).map (fun i =>
    { txType := TxKind.erc20Transfer, toAddr := [], value := 0, data := none,
      usd_value := (i : ℚ), balance := 0 })

/-- Witness for C3 on a concrete pool of 50 candidates and the cap of 10. -/
theorem final_cap_selects_top_batch_spot :
    (finalTransactions fiftyCandidates).length = MAX_BATCH_SIZE ∧
    List.Pairwise (fun a b => b.usd_value ≤ a.usd_value)
      (finalTransactions fiftyCandidates) :=
  have h : MAX_BATCH_SIZE < fiftyCandidates.length := by decide
  ⟨(final_cap_selects_top_batch fiftyCandidates h).1,
   (final_cap_selects_top_batch fiftyCandidates h).2.1⟩

/-! ### The provisional comparator, characterized -/

theorem erc20LE_iff (a b : ERC20Asset) :
    erc20LE a b = true ↔
      (0 < a.usd_value ∧ 0 < b.usd_value ∧ b.usd_value ≤ a.usd_value) ∨
      (0 < a.usd_value ∧ b.usd_value ≤ 0) ∨
      (a.usd_value ≤ 0 ∧ b.usd_value ≤ 0 ∧ b.balance ≤ a.balance) := by
  simp only [erc20LE, decide_eq_true_eq, erc20Cmp]
  rcases lt_or_le 0 a.usd_value with ha | ha <;>
    rcases lt_or_le 0 b.usd_value with hb | hb
  · rw [if_pos ⟨ha, hb⟩]
    constructor
    · intro h; exact Or.inl ⟨ha, hb, by linarith⟩
    · rintro (⟨_, _, h⟩ | ⟨_, h⟩ | ⟨h, _⟩) <;> linarith
  · rw [if_neg (fun h => absurd h.2 (not_lt.mpr hb)), if_pos ha]
    constructor
    · intro _; exact Or.inr (Or.inl ⟨ha, hb⟩)
    · intro _; norm_num
  · rw [if_neg (fun h => absurd h.1 (not_lt.mpr ha)), if_neg (not_lt.mpr ha), if_pos hb]
    constructor
    · intro h; norm_num at h
    · rintro (⟨h, _⟩ | ⟨h, _⟩ | ⟨_, h, _⟩) <;> linarith
  · rw [if_neg (fun h => absurd h.1 (not_lt.mpr ha)), if_neg (not_lt.mpr ha),
      if_neg (not_lt.mpr hb)]
    constructor
    · intro h
      refine Or.inr (Or.inr ⟨ha, hb, ?_⟩)
      have : (b.balance : ℚ) ≤ (a.balance : ℚ) := by linarith
      exact_mod_cast this
    · rintro (⟨h, _⟩ | ⟨h, _⟩ | ⟨_, _, h⟩)
      · linarith
      · linarith
      · have : (b.balance : ℚ) ≤ (a.balance : ℚ) := by exact_mod_cast h
        linarith

theorem erc20LE_trans (a b c : ERC20Asset) (h₁ : erc20LE a b) (h₂ : erc20LE b c) :
    erc20LE a c := by
  rw [erc20LE_iff] at h₁ h₂ ⊢
  rcases h₁ with ⟨ha, hb, hab⟩ | ⟨ha, hb⟩ | ⟨ha, hb, hab⟩ <;>
    rcases h₂ with ⟨hb2, hc, hbc⟩ | ⟨hb2, hc⟩ | ⟨hb2, hc, hbc⟩ <;>
      first
        | exact Or.inl ⟨by linarith, by linarith, by linarith⟩
        | exact Or.inr (Or.inl ⟨by linarith, by linarith⟩)
        | exact Or.inr (Or.inr ⟨by linarith, by linarith, by omega⟩)

theorem erc20LE_total (a b : ERC20Asset) : erc20LE a b || erc20LE b a := by
  simp only [Bool.or_eq_true, erc20LE_iff]
  rcases lt_or_le 0 a.usd_value with ha | ha <;>
    rcases lt_or_le 0 b.usd_value with hb | hb
  · rcases le_total b.usd_value a.usd_value with h | h
    · exact Or.inl (Or.inl ⟨ha, hb, h⟩)
    · exact Or.inr (Or.inl ⟨hb, ha, h⟩)
  · exact Or.inl (Or.inr (Or.inl ⟨ha, hb⟩))
  · exact Or.inr (Or.inr (Or.inl ⟨hb, ha⟩))
  · rcases Nat.le_total b.balance a.balance with h | h
    · exact Or.inl (Or.inr (Or.inr ⟨ha, hb, h⟩))
    · exact Or.inr (Or.inr (Or.inr ⟨hb, ha, h⟩))

/-- Two candidates tied at zero USD value with different raw balances, listed
smaller-balance first. -/
def tieTxSmall : BatchTx :=
  { txType := TxKind.erc20Transfer, toAddr := ['a'], value := 0, data := none,
    usd_value := 0, balance := 1 }

def tieTxBig : BatchTx :=
  { txType := TxKind.erc20Transfer, toAddr := ['b'], value := 0, data := none,
    usd_value := 0, balance := 5 }

/-- Counterexample to C8: the final merged sort has no balance tie-break.
Two candidates tied at zero USD value stay in merge order (stable sort),
here ascending — not descending — raw balance. -/
theorem final_sort_ignores_balance_tiebreak :
    sortByUsdDesc [tieTxSmall, tieTxBig] = [tieTxSmall, tieTxBig] ∧
    tieTxSmall.usd_value = 0 ∧ tieTxBig.usd_value = 0 ∧
    tieTxSmall.balance < tieTxBig.balance :=
  ⟨List.mergeSort_of_sorted (by decide), rfl, rfl, by decide⟩

/-- Claim C8 (amended): every ranking sorts by `usd_value` descending; the
balance tie-break for zero/unknown-value ties applies to the provisional
ERC-20 ranking only, while the final merged ranking sorts solely by
`usd_value` (stable, so ties keep merge order). -/
theorem ranking_tiebreak_amended (l : List ERC20Asset) (m : List BatchTx) :
    List.Pairwise (fun a b =>
      (0 < a.usd_value ∧ 0 < b.usd_value ∧ b.usd_value ≤ a.usd_value) ∨
      (0 < a.usd_value ∧ b.usd_value ≤ 0) ∨
      (a.usd_value ≤ 0 ∧ b.usd_value ≤ 0 ∧ b.balance ≤ a.balance))
      (sortErc20Provisional l) ∧
    (sortErc20Provisional l).Perm l ∧
    List.Pairwise (fun a b => b.usd_value ≤ a.usd_value) (sortByUsdDesc m) ∧
    (sortByUsdDesc m).Perm m := by
  refine ⟨?_, List.mergeSort_perm l erc20LE, sortByUsdDesc_sorted m, sortByUsdDesc_perm m⟩
  have h := List.sorted_mergeSort erc20LE_trans erc20LE_total l
  exact h.imp (fun hab => (erc20LE_iff _ _).mp hab)

/-! ### Precheck-gate scenario candidates -/

def scenarioErc20A : BatchTx :=
  { txType := TxKind.erc20Transfer, toAddr := ['a'], value := 0, data := none,
    usd_value := 3, balance := 30 }

def scenarioErc20B : BatchTx :=
  { txType := TxKind.erc20Transfer, toAddr := ['b'], value := 0, data := none,
    usd_value := 2, balance := 20 }

def scenarioErc20C : BatchTx :=
  { txType := TxKind.erc20Transfer, toAddr := ['c'], value := 0, data := none,
    usd_value := 1, balance := 10 }

def scenarioNative : BatchTx :=
  { txType := TxKind.nativeTransfer, toAddr := ['d'], value := 5, data := none,
    usd_value := 9, balance := 0 }

def scenarioErc721 : BatchTx :=
  { txType := TxKind.erc721Transfer, toAddr := ['e'], value := 0, data := none,
    usd_value := 4, balance := 0 }

/-- A chain oracle under which exactly `scenarioErc20B` reverts. -/
def scenarioRevertOracle (t : BatchTx) : Bool := decide (t ≠ scenarioErc20B)

/-- Claim C5: the precheck retains exactly the candidates whose simulation
succeeds, in original relative order, dropping each failing candidate without
affecting any other; native and NFT candidates bypass the gate entirely (the
merge keeps them all, for every oracle); and in the 3-ERC-20 + 1 native +
1 ERC-721 scenario with one engineered revert, exactly the reverting ERC-20
is excluded and the other four are retained. -/
theorem precheck_gate_drops_only_failures (ok : BatchTx → Bool)
    (pool natives e721s e1155s : List BatchTx) :
    (precheckERC20 ok pool).Sublist pool ∧
    (∀ t, t ∈ precheckERC20 ok pool ↔ t ∈ pool ∧ ok t = true) ∧
    mergeValidTransactions natives (precheckERC20 ok pool) e721s e1155s =
      natives ++ precheckERC20 ok pool ++ e721s ++ e1155s ∧
    (∀ t ∈ natives, t ∈ mergeValidTransactions natives (precheckERC20 ok pool) e721s e1155s) ∧
    (∀ t ∈ e721s, t ∈ mergeValidTransactions natives (precheckERC20 ok pool) e721s e1155s) ∧
    (∀ t ∈ e1155s, t ∈ mergeValidTransactions natives (precheckERC20 ok pool) e721s e1155s) ∧
    mergeValidTransactions [scenarioNative]
      (precheckERC20 scenarioRevertOracle [scenarioErc20A, scenarioErc20B, scenarioErc20C])
      [scenarioErc721] [] =
      [scenarioNative, scenarioErc20A, scenarioErc20C, scenarioErc721] := by
  refine ⟨List.filter_sublist _, fun t => List.mem_filter, rfl, ?_, ?_, ?_, by decide⟩
  · intro t ht
    simp only [mergeValidTransactions, List.mem_append]
    tauto
  · intro t ht
    simp only [mergeValidTransactions, List.mem_append]
    tauto
  · intro t ht
    simp only [mergeValidTransactions, List.mem_append]
    tauto

/-- Witness for C5: the native candidate is retained by the merge in the
concrete revert scenario. -/
theorem precheck_gate_drops_only_failures_spot :
    scenarioNative ∈ mergeValidTransactions [scenarioNative]
      (precheckERC20 scenarioRevertOracle [scenarioErc20A, scenarioErc20B, scenarioErc20C])
      [scenarioErc721] [] :=
  (precheck_gate_drops_only_failures scenarioRevertOracle
    [scenarioErc20A, scenarioErc20B, scenarioErc20C] [scenarioNative]
    [scenarioErc721] []).2.2.2.1 scenarioNative (by decide)

/-! ### Calldata encoders (steps 2.2, 2.3 and the ERC-20 construction)

The code builds calldata by template-string concatenation of
`selector`, `slice(2).padStart(64,'0')` address fields and
`toString(16).padStart(64,'0')` integer fields. Only the target address is
lower-cased (`TARGET = targetAddress.toLowerCase()`); the owner `address`
parameter is spliced in verbatim. -/

def erc20Selector : List Char := ['a', '9', '0', '5', '9', 'c', 'b', 'b']

def erc721Selector : List Char := ['4', '2', '8', '4', '2', 'e', '0', 'e']

def erc1155Selector : List Char := ['f', '2', '4', '2', '4', '3', '2', 'a']

/-- `addr.slice(2).padStart(64, '0')`. -/
def addressField (addr : List Char) : List Char := padStart64 (addr.drop 2)

/-- The hardcoded `dataOffset` word `'00…0a0'` (62 zeros then `a0`). -/
def erc1155DataOffset : List Char := List.replicate 62 '0' ++ ['a', '0']

/-- The hardcoded zero `dataLength` word. -/
def erc1155DataLength : List Char := List.replicate 64 '0'

/-- ERC-20 `transfer(address,uint256)` calldata:
`0xa9059cbb${recipientAddress}${transferAmount}`. -/
def erc20Calldata (target : List Char) (balance : Nat) : List Char :=
  '0' :: 'x' :: (erc20Selector ++ (addressField target ++ uint256Field balance))

/-- ERC-721 `safeTransferFrom(address,address,uint256)` calldata:
`0x42842e0e${fromAddress}${toAddress}${tokenId}`. -/
def erc721Calldata (fromAddress target : List Char) (tokenId : Nat) : List Char :=
  '0' :: 'x' :: (erc721Selector ++ (addressField fromAddress ++
    (addressField target ++ uint256Field tokenId)))

/-- ERC-1155 `safeTransferFrom(address,address,uint256,uint256,bytes)` calldata:
`0xf242432a${fromAddress}${toAddress}${tokenIdHex}${amountHex}${dataOffset}${dataLength}`. -/
def erc1155Calldata (fromAddress target : List Char) (tokenId amount : Nat) : List Char :=
  '0' :: 'x' :: (erc1155Selector ++ (addressField fromAddress ++
    (addressField target ++ (uint256Field tokenId ++ (uint256Field amount ++
      (erc1155DataOffset ++ erc1155DataLength))))))

/-! ### Standard ABI word decoding -/

/-- The `i`-th 32-byte word of an argument area. -/
def wordAt (l : List Char) (i : Nat) : List Char := (l.drop (64 * i)).take 64

/-- The `i`-th 32-byte argument word of a `0x`-prefixed calldata string
(2 prefix characters plus 8 selector characters are skipped). -/
def calldataWord (d : List Char) (i : Nat) : List Char := wordAt (d.drop 10) i

/-- ABI address decoding: the last 20 bytes of an argument word. -/
def decodeAddressChars (d : List Char) (i : Nat) : List Char := (calldataWord d i).drop 24

/-- ABI uint256 decoding of an argument word. -/
def decodeUint (d : List Char) (i : Nat) : Nat := hexValue (calldataWord d i)

theorem drop_prefix_calldata (sel l : List Char) (hsel : sel.length = 8) :
    ('0' :: 'x' :: (sel ++ l)).drop 10 = l := by
  show (sel ++ l).drop 8 = l
  exact List.drop_left' hsel

theorem wordAt_zero {w l : List Char} (hw : w.length = 64) : wordAt (w ++ l) 0 = w := by
  simp only [wordAt, Nat.mul_zero, List.drop_zero]
  exact List.take_left' hw

theorem wordAt_succ {w l : List Char} (hw : w.length = 64) (i : Nat) :
    wordAt (w ++ l) (i + 1) = wordAt l i := by
  simp only [wordAt]
  rw [show 64 * (i + 1) = 64 + 64 * i by ring, ← List.drop_drop, List.drop_left' hw]

theorem wordAt_last {l : List Char} (h : l.length = 64) : wordAt l 0 = l := by
  simp only [wordAt, Nat.mul_zero, List.drop_zero]
  exact List.take_of_length_le (by omega)

theorem addressField_eq {addr : List Char} (h : addr.length = 42) :
    addressField addr = List.replicate 24 '0' ++ addr.drop 2 := by
  simp [addressField, padStart64, h]

theorem addressField_length {addr : List Char} (h : addr.length = 42) :
    (addressField addr).length = 64 := by
  rw [addressField_eq h]
  simp [h]

/-- Claim C4: ERC-20 calldata is the selector `0xa9059cbb`, the recipient
left-padded to 32 bytes, then the balance as a 32-byte big-endian unsigned
integer; ABI-decoding the payload recovers exactly the recipient address
characters and the integer balance used to build it. -/
theorem erc20_calldata_roundtrip (target : List Char) (balance : Nat)
    (hlen : target.length = 42) (hb : balance < 16 ^ 64) :
    erc20Calldata target balance =
      '0' :: 'x' :: (erc20Selector ++
        ((List.replicate 24 '0' ++ target.drop 2) ++ uint256Field balance)) ∧
    decodeAddressChars (erc20Calldata target balance) 0 = target.drop 2 ∧
    decodeUint (erc20Calldata target balance) 1 = balance := by
  have haf := addressField_eq hlen
  have hafl := addressField_length hlen
  refine ⟨by rw [erc20Calldata, haf], ?_, ?_⟩
  · simp only [decodeAddressChars, calldataWord, erc20Calldata]
    rw [drop_prefix_calldata _ _ (by decide), wordAt_zero hafl, haf,
      List.drop_left' (by simp)]
  · simp only [decodeUint, calldataWord, erc20Calldata]
    rw [drop_prefix_calldata _ _ (by decide), wordAt_succ hafl 0,
      wordAt_last (uint256Field_length hb), hexValue_uint256Field]

/-- Witness for C4 on a concrete recipient and balance. -/
theorem erc20_calldata_roundtrip_spot :
    decodeAddressChars
        (erc20Calldata ('0' :: 'x' :: List.replicate 40 'c') 123456789) 0 =
      List.replicate 40 'c' ∧
    decodeUint (erc20Calldata ('0' :: 'x' :: List.replicate 40 'c') 123456789) 1 =
      123456789 :=
  ⟨((erc20_calldata_roundtrip ('0' :: 'x' :: List.replicate 40 'c') 123456789
      (by decide) (by norm_num)).2.1),
   ((erc20_calldata_roundtrip ('0' :: 'x' :: List.replicate 40 'c') 123456789
      (by decide) (by norm_num)).2.2)⟩

/-! ### NFT calldata: layout, casing and round-trip -/

/-- An owner address whose checksummed form contains an uppercase hex digit. -/
def upperFromAddress : List Char := '0' :: 'x' :: ('A' :: List.replicate 39 'b')

/-- A lowercase target address. -/
def lowerTargetEx : List Char := '0' :: 'x' :: List.replicate 40 'c'

/-- Counterexample to C9: the from-address of an ERC-721 payload is embedded
with its original casing — the code never lower-cases the owner `address`
parameter, so an uppercase `A` survives into the calldata. -/
theorem erc721_from_address_not_lowercased :
    decodeAddressChars (erc721Calldata upperFromAddress lowerTargetEx 7) 0 =
      'A' :: List.replicate 39 'b' ∧
    Char.toLower 'A' = 'a' ∧ ('A' : Char) ≠ 'a' := by
  refine ⟨by decide, by decide, by decide⟩

/-- Claim C9 (amended): in ERC-721/1155 payloads every integer argument is
encoded unsigned big-endian zero-padded to 32 bytes and every address argument
is left-padded to 32 bytes; the recipient is embedded lower-cased, while the
from-address keeps the caller-supplied casing; ABI decoding recovers every
argument exactly (hex digits being read case-insensitively). -/
theorem nft_calldata_encoding_amended (fromAddress rawTarget : List Char)
    (tokenId amount : Nat) (hf : fromAddress.length = 42)
    (ht : rawTarget.length = 42) (hid : tokenId < 16 ^ 64) (ham : amount < 16 ^ 64) :
    erc721Calldata fromAddress (toLowerStr rawTarget) tokenId =
      '0' :: 'x' :: (erc721Selector ++
        ((List.replicate 24 '0' ++ fromAddress.drop 2) ++
          ((List.replicate 24 '0' ++ toLowerStr (rawTarget.drop 2)) ++
            uint256Field tokenId))) ∧
    decodeAddressChars (erc721Calldata fromAddress (toLowerStr rawTarget) tokenId) 0 =
      fromAddress.drop 2 ∧
    decodeAddressChars (erc721Calldata fromAddress (toLowerStr rawTarget) tokenId) 1 =
      toLowerStr (rawTarget.drop 2) ∧
    decodeUint (erc721Calldata fromAddress (toLowerStr rawTarget) tokenId) 2 = tokenId ∧
    decodeAddressChars (erc1155Calldata fromAddress (toLowerStr rawTarget) tokenId amount) 0 =
      fromAddress.drop 2 ∧
    decodeAddressChars (erc1155Calldata fromAddress (toLowerStr rawTarget) tokenId amount) 1 =
      toLowerStr (rawTarget.drop 2) ∧
    decodeUint (erc1155Calldata fromAddress (toLowerStr rawTarget) tokenId amount) 2 =
      tokenId ∧
    decodeUint (erc1155Calldata fromAddress (toLowerStr rawTarget) tokenId amount) 3 =
      amount ∧
    decodeUint (erc1155Calldata fromAddress (toLowerStr rawTarget) tokenId amount) 4 = 160 ∧
    decodeUint (erc1155Calldata fromAddress (toLowerStr rawTarget) tokenId amount) 5 = 0 := by
  have htl : (toLowerStr rawTarget).length = 42 := by
    simp [toLowerStr, ht]
  have htdrop : (toLowerStr rawTarget).drop 2 = toLowerStr (rawTarget.drop 2) := by
    simp [toLowerStr, List.map_drop]
  have hff := addressField_eq hf
  have hffl := addressField_length hf
  have htf := addressField_eq htl
  have htfl := addressField_length htl
  have hidl := uint256Field_length hid
  have haml := uint256Field_length ham
  have hoff : erc1155DataOffset.length = 64 := by decide
  have holen : erc1155DataLength.length = 64 := by decide
  refine ⟨?_, ?_, ?_, ?_, ?_, ?_, ?_, ?_, ?_, ?_⟩
  · rw [erc721Calldata, hff, htf, htdrop]
  · simp only [decodeAddressChars, calldataWord, erc721Calldata]
    rw [drop_prefix_calldata _ _ (by decide), wordAt_zero hffl, hff,
      List.drop_left' (by simp)]
  · simp only [decodeAddressChars, calldataWord, erc721Calldata]
    rw [drop_prefix_calldata _ _ (by decide), wordAt_succ hffl 0, wordAt_zero htfl,
      htf, htdrop, List.drop_left' (by simp)]
  · simp only [decodeUint, calldataWord, erc721Calldata]
    rw [drop_prefix_calldata _ _ (by decide), wordAt_succ hffl 1, wordAt_succ htfl 0,
      wordAt_last hidl, hexValue_uint256Field]
  · simp only [decodeAddressChars, calldataWord, erc1155Calldata]
    rw [drop_prefix_calldata _ _ (by decide), wordAt_zero hffl, hff,
      List.drop_left' (by simp)]
  · simp only [decodeAddressChars, calldataWord, erc1155Calldata]
    rw [drop_prefix_calldata _ _ (by decide), wordAt_succ hffl 0, wordAt_zero htfl,
      htf, htdrop, List.drop_left' (by simp)]
  · simp only [decodeUint, calldataWord, erc1155Calldata]
    rw [drop_prefix_calldata _ _ (by decide), wordAt_succ hffl 1, wordAt_succ htfl 0,
      wordAt_zero hidl, hexValue_uint256Field]
  · simp only [decodeUint, calldataWord, erc1155Calldata]
    rw [drop_prefix_calldata _ _ (by decide), wordAt_succ hffl 2, wordAt_succ htfl 1,
      wordAt_succ hidl 0, wordAt_zero haml, hexValue_uint256Field]
  · simp only [decodeUint, calldataWord, erc1155Calldata]
    rw [drop_prefix_calldata _ _ (by decide), wordAt_succ hffl 3, wordAt_succ htfl 2,
      wordAt_succ hidl 1, wordAt_succ haml 0, wordAt_zero hoff]
    decide
  · simp only [decodeUint, calldataWord, erc1155Calldata]
    rw [drop_prefix_calldata _ _ (by decide), wordAt_succ hffl 4, wordAt_succ htfl 3,
      wordAt_succ hidl 2, wordAt_succ haml 1, wordAt_succ hoff 0,
      wordAt_last holen]
    decide

/-- Witness for the amended C9 on a concrete (checksummed) owner address,
an uppercase target needing lower-casing, token id 7 and amount 3. -/
theorem nft_calldata_encoding_amended_spot :
    decodeAddressChars
        (erc721Calldata upperFromAddress
          (toLowerStr ('0' :: 'x' :: List.replicate 40 'C')) 7) 1 =
      toLowerStr (('0' :: 'x' :: List.replicate 40 'C').drop 2) ∧
    decodeUint
        (erc1155Calldata upperFromAddress
          (toLowerStr ('0' :: 'x' :: List.replicate 40 'C')) 7 3) 3 = 3 :=
  ⟨(nft_calldata_encoding_amended upperFromAddress ('0' :: 'x' :: List.replicate 40 'C')
      7 3 (by decide) (by decide) (by norm_num) (by norm_num)).2.2.1,
   (nft_calldata_encoding_amended upperFromAddress ('0' :: 'x' :: List.replicate 40 'C')
      7 3 (by decide) (by decide) (by norm_num) (by norm_num)).2.2.2.2.2.2.2.1⟩

/-! ### Batch submission (steps 5–6: empty check, call formatting, validation,
`sendCalls`)

The submitter's input records have dynamically-typed `value` fields; the
variants the code distinguishes (`bigint` / `string` / anything else) are an
explicit sum here. `BigInt(string)` is modelled as decimal-integer parsing
(`none` = the constructor throws). The `chainId` coercion is numeric
throughout the embedding and is threaded unchanged. -/

inductive JSTxValue where
  | big (n : Nat)
  | strv (s : List Char)
  | undef
deriving DecidableEq, Repr

def decDigit (c : Char) : Option Nat :=
  if 48 ≤ c.toNat ∧ c.toNat ≤ 57 then some (c.toNat - 48) else none

def parseDecNatAux : Nat → List Char → Option Nat
  | a, [] => some a
  | a, c :: rest =>
    match decDigit c with
    | some d => parseDecNatAux (10 * a + d) rest
    | none => none

/-- `BigInt(s)` for a non-empty string, modelled as decimal parsing. -/
def parseDecNat : List Char → Option Nat
  | [] => none
  | c :: rest => parseDecNatAux 0 (c :: rest)

/-- An entry of `finalTransactions` as the submitter sees it. -/
structure SubmitEntry where
  toAddr : List Char
  value : JSTxValue
  data : Option (List Char)
deriving DecidableEq, Repr

/-- A formatted `{to, value, data?}` call. -/
structure FormattedCall where
  toAddr : List Char
  value : Nat
  data : Option (List Char)
deriving DecidableEq, Repr

/-- `!tx.to || typeof tx.to !== 'string' || !tx.to.startsWith('0x') ||
tx.to.length !== 42`, negated. -/
def validToAddress (a : List Char) : Bool :=
  decide (a.take 2 = ['0', 'x']) && decide (a.length = 42)

/-- `tx.data && typeof tx.data === 'string' && tx.data.startsWith('0x') &&
tx.data.length > 2`: the condition under which `data` is attached to the call. -/
def dataAttachable (d : List Char) : Bool :=
  decide (d.take 2 = ['0', 'x']) && decide (2 < d.length)

/-- One iteration of the `finalTransactions.map` call-formatting block:
`none` models the `throw` on an invalid address or an unparsable string value.
A falsy value (`0n`, `''`, absence) leaves the `BigInt(0)` default; data that
fails `dataAttachable` is silently omitted, not rejected. -/
def buildCall (tx : SubmitEntry) : Option FormattedCall :=
  if validToAddress tx.toAddr then
    let v? : Option Nat :=
      match tx.value with
      | .big n => some n
      | .strv s => if s.isEmpty then some 0 else parseDecNat s
      | .undef => some 0
    match v? with
    | none => none
    | some v =>
      some { toAddr := toLowerStr tx.toAddr, value := v,
             data := match tx.data with
               | some d => if dataAttachable d then some d else none
               | none => none }
  else none

/-- The whole `map`: the first `throw` (`none`) aborts everything. -/
def buildCallsFrom : List SubmitEntry → Option (List FormattedCall)
  | [] => some []
  | tx :: rest =>
    match buildCall tx with
    | none => none
    | some c => (buildCallsFrom rest).map (fun cs => c :: cs)

/-- The post-formatting validation loop over `calls` (the `value` field is
always a `bigint` by construction, so only the address and data checks can
fire; an empty data string is falsy in JS and skips the data check). -/
def callValid (c : FormattedCall) : Bool :=
  validToAddress c.toAddr &&
    (match c.data with
     | some d => d.isEmpty || (decide (d.take 2 = ['0', 'x']) && decide (2 ≤ d.length))
     | none => true)

/-- The observable outcome of the submission step: `submitted` is the only
outcome that reaches `sendCalls` (the wallet RPC). -/
inductive SubmitOutcome where
  | nothingToTransfer
  | aborted
  | submitted (chainId : Nat) (calls : List FormattedCall)
deriving DecidableEq, Repr

/-- Steps 5–6 end-to-end: empty-list early return (structured
"nothing to transfer", no RPC), formatting `map` (first failure aborts all),
validation loop (first failure aborts all), then the single `sendCalls`. -/
def submitBatch (chainId : Nat) (finalTxs : List SubmitEntry) : SubmitOutcome :=
  if finalTxs.isEmpty then .nothingToTransfer
  else
    match buildCallsFrom finalTxs with
    | none => .aborted
    | some calls =>
      if calls.all callValid then .submitted chainId calls else .aborted

/-- An entry whose `data` is not well-formed hex, but whose address is fine. -/
def entryBadData : SubmitEntry :=
  { toAddr := '0' :: 'x' :: List.replicate 40 'a', value := .big 0,
    data := some ['z', 'z', 'z'] }

/-- Counterexample to C6: an entry with malformed hex `data` does NOT abort
the batch — its `data` is silently dropped and the call is submitted. -/
theorem malformed_data_does_not_abort :
    submitBatch 1 [entryBadData] =
      SubmitOutcome.submitted 1
        [{ toAddr := '0' :: 'x' :: List.replicate 40 'a', value := 0, data := none }] ∧
    entryBadData.data = some ['z', 'z', 'z'] ∧
    dataAttachable ['z', 'z', 'z'] = false := by
  refine ⟨by decide, rfl, by decide⟩

theorem buildCallsFrom_mem_isSome :
    ∀ (l : List SubmitEntry) (calls : List FormattedCall),
      buildCallsFrom l = some calls → ∀ tx ∈ l, (buildCall tx).isSome = true := by
  intro l
  induction l with
  | nil => intro calls _ tx htx; cases htx
  | cons t rest ih =>
    intro calls h tx htx
    simp only [buildCallsFrom] at h
    cases hb : buildCall t with
    | none => rw [hb] at h; cases h
    | some c =>
      rw [hb] at h
      cases hr : buildCallsFrom rest with
      | none => rw [hr] at h; cases h
      | some cs =>
        rcases List.mem_cons.mp htx with rfl | hmem
        · simp [hb]
        · exact ih cs hr tx hmem

theorem buildCallsFrom_data_wellformed :
    ∀ (l : List SubmitEntry) (calls : List FormattedCall),
      buildCallsFrom l = some calls →
      ∀ c ∈ calls, c.data = none ∨ ∃ d, c.data = some d ∧ dataAttachable d = true := by
  intro l
  induction l with
  | nil =>
    intro calls h c hc
    simp only [buildCallsFrom] at h
    cases h
    cases hc
  | cons t rest ih =>
    intro calls h c hc
    simp only [buildCallsFrom] at h
    cases hb : buildCall t with
    | none => rw [hb] at h; cases h
    | some c₀ =>
      rw [hb] at h
      cases hr : buildCallsFrom rest with
      | none => rw [hr] at h; cases h
      | some cs =>
        rw [hr] at h
        have hh : c₀ :: cs = calls := by simpa using h
        subst hh
        rcases List.mem_cons.mp hc with rfl | hmem
        · simp only [buildCall] at hb
          split at hb
          · rcases hv : (match t.value with
              | .big n => some n
              | .strv s => if s.isEmpty then some 0 else parseDecNat s
              | .undef => some 0) with _ | v
            · rw [hv] at hb; cases hb
            · rw [hv] at hb
              simp only [Option.some_inj] at hb
              subst hb
              cases hd : t.data with
              | none => simp
              | some d =>
                simp only [hd]
                by_cases hatt : dataAttachable d = true
                · exact Or.inr ⟨d, by simp [hatt], hatt⟩
                · simp only [Bool.not_eq_true] at hatt
                  simp [hatt]
          · cases hb
        · exact ih cs hr c hmem

/-- Claim C6 (amended): an empty final list yields the structured
"nothing to transfer" outcome with no wallet-RPC call and no exception; a
malformed address (or a string value that fails integer parsing) aborts the
entire batch before any network call, so a batch is submitted only if every
entry formats successfully — no partial submission exists; an entry whose
`data` is not well-formed `0x`-hex has the `data` field silently omitted
(instead of aborting), so every submitted call carries only validated data. -/
theorem submitter_validation_amended :
    (∀ chainId, submitBatch chainId [] = SubmitOutcome.nothingToTransfer) ∧
    (∀ chainId finalTxs chainId₂ calls,
      submitBatch chainId finalTxs = SubmitOutcome.submitted chainId₂ calls →
      ∀ tx ∈ finalTxs, (buildCall tx).isSome = true) ∧
    (∀ chainId finalTxs chainId₂ calls,
      submitBatch chainId finalTxs = SubmitOutcome.submitted chainId₂ calls →
      ∀ c ∈ calls, callValid c = true ∧
        (c.data = none ∨ ∃ d, c.data = some d ∧ dataAttachable d = true)) := by
  refine ⟨fun _ => rfl, ?_, ?_⟩
  · intro chainId finalTxs chainId₂ calls h tx htx
    by_cases he : finalTxs.isEmpty
    · simp [submitBatch, he] at h
    · cases hb : buildCallsFrom finalTxs with
      | none => simp [submitBatch, he, hb] at h
      | some cs => exact buildCallsFrom_mem_isSome finalTxs cs hb tx htx
  · intro chainId finalTxs chainId₂ calls h c hc
    by_cases he : finalTxs.isEmpty
    · simp [submitBatch, he] at h
    · cases hb : buildCallsFrom finalTxs with
      | none => simp [submitBatch, he, hb] at h
      | some cs =>
        by_cases hall : cs.all callValid
        · have hcalls : calls = cs := by
            simp [submitBatch, he, hb, hall] at h
            exact h.2.symm
          rw [hcalls] at hc
          exact ⟨List.all_eq_true.mp hall c hc,
            buildCallsFrom_data_wellformed finalTxs cs hb c hc⟩
        · simp [submitBatch, he, hb, hall] at h

/-- Witness for the amended C6: a well-formed singleton batch is submitted and
its call is validated. -/
theorem submitter_validation_amended_spot :
    ∀ c ∈ [({ toAddr := '0' :: 'x' :: List.replicate 40 'a', value := 0,
              data := none } : FormattedCall)],
      callValid c = true ∧
        (c.data = none ∨ ∃ d, c.data = some d ∧ dataAttachable d = true) :=
  submitter_validation_amended.2.2 1
    [{ toAddr := '0' :: 'x' :: List.replicate 40 'a', value := .big 0, data := none }] 1
    [{ toAddr := '0' :: 'x' :: List.replicate 40 'a', value := 0, data := none }]
    (by decide)

/-! ### NFT catalog (`fetchNFTsFromMoralis`) and NFT transfer building

`floor_price_usd` is a dynamically-typed JSON field; the code's "enhanced
price parsing" maps `undefined`/`null` to 0, parses strings with `parseFloat`
(NaN ↦ 0), passes numbers through (NaN ↦ 0) and ignores any other type.
`parseFloat` results are embedded as `Option ℚ` (`none` = NaN). -/

inductive FloorPrice where
  | missing
  | strVal (v : Option ℚ)
  | numVal (v : Option ℚ)
  | otherVal
deriving DecidableEq, Repr

/-- The `floorPriceUsd` local of the enhanced price parsing. -/
def parsedFloorPrice : FloorPrice → ℚ
  | .missing => 0
  | .strVal none => 0
  | .strVal (some v) => v
  | .numVal none => 0
  | .numVal (some v) => v
  | .otherVal => 0

/-- `floorPriceUsd > 0 && !isNaN(floorPriceUsd)` (NaN is already folded to 0). -/
def hasValidPrice (fp : FloorPrice) : Bool := decide (0 < parsedFloorPrice fp)

/-- A catalog NFT item with the fields the pipeline reads. -/
structure NftItem where
  token_address : List Char
  token_id : Nat
  contract_type : List Char
  floor_price_usd : FloorPrice
  amount : Option Nat
deriving DecidableEq, Repr

def toUpperStr (l : List Char) : List Char := l.map Char.toUpper

/-- `(nft.contract_type || '').toUpperCase() === 'ERC721'`. -/
def isERC721 (n : NftItem) : Bool :=
  decide (toUpperStr n.contract_type = ['E', 'R', 'C', '7', '2', '1'])

/-- `(nft.contract_type || '').toUpperCase() === 'ERC1155'`. -/
def isERC1155 (n : NftItem) : Bool :=
  decide (toUpperStr n.contract_type = ['E', 'R', 'C', '1', '1', '5', '5'])

/-- `processResponse`: Sepolia (11155111) returns the raw list unfiltered;
every other chain keeps only items with a positive parsed floor price. -/
def processResponse (chainId : Nat) (result : List NftItem) : List NftItem :=
  if chainId = 11155111 then result
  else result.filter (fun n => hasValidPrice n.floor_price_usd)

/-- `BigInt(nft.amount)` with the `1n` fallback for a missing field
(an unparsable amount also falls back to `1n` via the catch). -/
def nftAmount (n : NftItem) : Nat :=
  match n.amount with
  | some a => a
  | none => 1

/-- The ERC-721 transaction object pushed in step 2.2. -/
def mkErc721Tx (ownerAddress target : List Char) (n : NftItem) : BatchTx :=
  { txType := TxKind.erc721Transfer, toAddr := n.token_address, value := 0,
    data := some (erc721Calldata ownerAddress target n.token_id),
    usd_value := parsedFloorPrice n.floor_price_usd, balance := 0 }

/-- The ERC-1155 transaction object pushed in step 2.3. -/
def mkErc1155Tx (ownerAddress target : List Char) (n : NftItem) : BatchTx :=
  { txType := TxKind.erc1155Transfer, toAddr := n.token_address, value := 0,
    data := some (erc1155Calldata ownerAddress target n.token_id (nftAmount n)),
    usd_value := parsedFloorPrice n.floor_price_usd, balance := 0 }

/-- Step 2.2: `erc721NFTs.forEach` — skip (`return`) when the parsed floor
price is not strictly positive, push otherwise. -/
def buildERC721Transfers (ownerAddress target : List Char) : List NftItem → List BatchTx
  | [] => []
  | n :: rest =>
    if hasValidPrice n.floor_price_usd then
      mkErc721Tx ownerAddress target n :: buildERC721Transfers ownerAddress target rest
    else buildERC721Transfers ownerAddress target rest

/-- Step 2.3: the ERC-1155 analogue. -/
def buildERC1155Transfers (ownerAddress target : List Char) : List NftItem → List BatchTx
  | [] => []
  | n :: rest =>
    if hasValidPrice n.floor_price_usd then
      mkErc1155Tx ownerAddress target n :: buildERC1155Transfers ownerAddress target rest
    else buildERC1155Transfers ownerAddress target rest

/-- The step-2–5 pipeline from catalog data to the final capped list: native
transfer (step 2.1), NFT transfers (2.2/2.3), precheck of the ERC-20 pool
(3), merge (4), final sort and cap (5). The ERC-20 pool arrives as
already-built transaction objects and `ok` is the precheck chain oracle. -/
def assembleBatch (ownerAddress target : List Char) (ok : BatchTx → Bool)
    (nativeBalance totalGasCostWei : Nat) (nativeUsd nativePrice : ℚ)
    (erc20Pool : List BatchTx) (nfts : List NftItem) : List BatchTx :=
  finalTransactions
    (mergeValidTransactions
      (nativeTransfers target nativeBalance totalGasCostWei nativeUsd nativePrice)
      (precheckERC20 ok erc20Pool)
      (buildERC721Transfers ownerAddress target (nfts.filter isERC721))
      (buildERC1155Transfers ownerAddress target (nfts.filter isERC1155)))

theorem mem_buildERC721Transfers {ownerAddress target : List Char}
    {l : List NftItem} {tx : BatchTx} (h : tx ∈ buildERC721Transfers ownerAddress target l) :
    ∃ n ∈ l, hasValidPrice n.floor_price_usd = true ∧ tx = mkErc721Tx ownerAddress target n := by
  induction l with
  | nil => cases h
  | cons n rest ih =>
    simp only [buildERC721Transfers] at h
    by_cases hv : hasValidPrice n.floor_price_usd
    · rw [if_pos hv] at h
      rcases List.mem_cons.mp h with rfl | hmem
      · exact ⟨n, List.mem_cons_self n rest, hv, rfl⟩
      · obtain ⟨m, hm, hvm, rfl⟩ := ih hmem
        exact ⟨m, List.mem_cons_of_mem n hm, hvm, rfl⟩
    · rw [if_neg hv] at h
      obtain ⟨m, hm, hvm, rfl⟩ := ih h
      exact ⟨m, List.mem_cons_of_mem n hm, hvm, rfl⟩

theorem mem_buildERC1155Transfers {ownerAddress target : List Char}
    {l : List NftItem} {tx : BatchTx} (h : tx ∈ buildERC1155Transfers ownerAddress target l) :
    ∃ n ∈ l, hasValidPrice n.floor_price_usd = true ∧ tx = mkErc1155Tx ownerAddress target n := by
  induction l with
  | nil => cases h
  | cons n rest ih =>
    simp only [buildERC1155Transfers] at h
    by_cases hv : hasValidPrice n.floor_price_usd
    · rw [if_pos hv] at h
      rcases List.mem_cons.mp h with rfl | hmem
      · exact ⟨n, List.mem_cons_self n rest, hv, rfl⟩
      · obtain ⟨m, hm, hvm, rfl⟩ := ih hmem
        exact ⟨m, List.mem_cons_of_mem n hm, hvm, rfl⟩
    · rw [if_neg hv] at h
      obtain ⟨m, hm, hvm, rfl⟩ := ih h
      exact ⟨m, List.mem_cons_of_mem n hm, hvm, rfl⟩

theorem nativeTransfers_txType {target : List Char} {b r : Nat} {u p : ℚ} {tx : BatchTx}
    (h : tx ∈ nativeTransfers target b r u p) : tx.txType = TxKind.nativeTransfer := by
  by_cases hlt : r < b
  · simp only [nativeTransfers, if_pos hlt, List.mem_singleton] at h
    subst h; rfl
  · simp only [nativeTransfers, if_neg hlt] at h
    cases h

/-- Claim C10: an NFT whose floor-price valuation is missing, non-numeric or
not strictly positive never yields an ERC-721/ERC-1155 transfer in the final
batch, on every chain — every NFT-typed transaction in the pipeline output
comes from a catalog item with a strictly positive parsed floor price — even
though on Sepolia such NFTs do appear in the catalog (and hence its cache),
since the catalog-level filter is bypassed there. -/
theorem priceless_nft_never_transferred (chainId : Nat) (ownerAddress target : List Char)
    (ok : BatchTx → Bool) (nativeBalance totalGasCostWei : Nat) (nativeUsd nativePrice : ℚ)
    (erc20Pool : List BatchTx) (raw : List NftItem)
    (h20 : ∀ t ∈ erc20Pool, t.txType = TxKind.erc20Transfer) :
    (∀ tx ∈ assembleBatch ownerAddress target ok nativeBalance totalGasCostWei
        nativeUsd nativePrice erc20Pool (processResponse chainId raw),
      (tx.txType = TxKind.erc721Transfer ∨ tx.txType = TxKind.erc1155Transfer) →
      ∃ n ∈ processResponse chainId raw, hasValidPrice n.floor_price_usd = true ∧
        (tx = mkErc721Tx ownerAddress target n ∨ tx = mkErc1155Tx ownerAddress target n)) ∧
    processResponse 11155111 raw = raw := by
  constructor
  · intro tx htx hkind
    have hmem : tx ∈ mergeValidTransactions
        (nativeTransfers target nativeBalance totalGasCostWei nativeUsd nativePrice)
        (precheckERC20 ok erc20Pool)
        (buildERC721Transfers ownerAddress target ((processResponse chainId raw).filter isERC721))
        (buildERC1155Transfers ownerAddress target ((processResponse chainId raw).filter isERC1155)) := by
      have h1 : tx ∈ sortByUsdDesc (mergeValidTransactions _ _ _ _) :=
        (List.take_sublist _ _).mem htx
      exact (sortByUsdDesc_perm _).mem_iff.mp h1
    simp only [mergeValidTransactions, List.mem_append] at hmem
    rcases hmem with ((hnat | h20') | h721) | h1155
    · have := nativeTransfers_txType hnat
      rcases hkind with hk | hk <;> rw [hk] at this <;> cases this
    · have := h20 tx (List.mem_of_mem_filter h20')
      rcases hkind with hk | hk <;> rw [hk] at this <;> cases this
    · obtain ⟨n, hn, hv, rfl⟩ := mem_buildERC721Transfers h721
      exact ⟨n, List.mem_of_mem_filter hn, hv, Or.inl rfl⟩
    · obtain ⟨n, hn, hv, rfl⟩ := mem_buildERC1155Transfers h1155
      exact ⟨n, List.mem_of_mem_filter hn, hv, Or.inr rfl⟩
  · rfl

/-- A priced ERC-721 item for the witness instance. -/
def pricedNft : NftItem :=
  { token_address := '0' :: 'x' :: List.replicate 40 'd', token_id := 1,
    contract_type := ['E', 'R', 'C', '7', '2', '1'],
    floor_price_usd := FloorPrice.numVal (some 5), amount := none }

/-- Witness for C10: on mainnet with a single priced ERC-721 catalog item and
no other candidates, the single NFT-typed output transaction traces back to a
positively-priced catalog item. -/
theorem priceless_nft_never_transferred_spot :
    ∃ n ∈ processResponse 1 [pricedNft], hasValidPrice n.floor_price_usd = true ∧
      (mkErc721Tx upperFromAddress lowerTargetEx pricedNft =
          mkErc721Tx upperFromAddress lowerTargetEx n ∨
        mkErc721Tx upperFromAddress lowerTargetEx pricedNft =
          mkErc1155Tx upperFromAddress lowerTargetEx n) := by
  have hassemble : assembleBatch upperFromAddress lowerTargetEx (fun _ => true) 0 0 0 0 []
      (processResponse 1 [pricedNft]) =
      [mkErc721Tx upperFromAddress lowerTargetEx pricedNft] := by
    show (List.mergeSort [mkErc721Tx upperFromAddress lowerTargetEx pricedNft]
      finalSortLE).take MAX_BATCH_SIZE = _
    rw [List.mergeSort_singleton]
    rfl
  exact (priceless_nft_never_transferred 1 upperFromAddress lowerTargetEx (fun _ => true)
      0 0 0 0 [] [pricedNft] (fun t ht => absurd ht (List.not_mem_nil t))).1
    (mkErc721Tx upperFromAddress lowerTargetEx pricedNft)
    (by rw [hassemble]; exact List.mem_singleton_self _) (Or.inl rfl)

/-! ### The local NFT cache (`getCache` / `setCache` / `clearCache` inside
`fetchNFTsFromMoralis`)

The cache for one `(ownerAddress, chainId)` key is a single optional
`{data, timestamp}` entry. `upstream` is the outcome a network request would
have (`some raw` = HTTP OK with parsed `data.result`; `none` = HTTP failure).
Credentials and the chain-name table are assumed configured/supported — the
claim concerns a call that can reach the network. Timestamps are
milliseconds; `now - ts` is the JS subtraction (calls have `now ≥ ts`). -/

def CACHE_DURATION : Nat := 3600000

structure NftCacheState where
  entry : Option (List NftItem × Nat)
deriving DecidableEq, Repr

/-- `getCache`: expired entries are removed and miss; fresh entries hit. -/
def getCache (st : NftCacheState) (now : Nat) : Option (List NftItem) × NftCacheState :=
  match st.entry with
  | none => (none, st)
  | some (d, ts) =>
    if CACHE_DURATION < now - ts then (none, ⟨none⟩) else (some d, st)

/-- `clearCache` / `localStorage.removeItem`. -/
def clearCacheState : NftCacheState := ⟨none⟩

structure FetchNFTsResult where
  result : List NftItem
  state : NftCacheState
  upstreamRequested : Bool
deriving DecidableEq, Repr

/-- `fetchNFTsFromMoralis(address, chainId, forceRefresh)` as a state
transformer on the per-key cache: force-refresh clears first; a (post-clear)
cache hit is returned verbatim with no request; otherwise the request is made —
on success the filtered list is cached (even when empty), on failure the
empty-cache invalidation block runs and nothing is cached. -/
def fetchNFTsFromMoralis (chainId : Nat) (st : NftCacheState) (now : Nat)
    (forceRefresh : Bool) (upstream : Option (List NftItem)) : FetchNFTsResult :=
  let st₁ := if forceRefresh then clearCacheState else st
  let g := getCache st₁ now
  let cachedHit : Option (List NftItem) :=
    if forceRefresh then none else g.1
  match cachedHit with
  | some d => ⟨d, g.2, false⟩
  | none =>
    match upstream with
    | some raw =>
      let nftList := processResponse chainId raw
      ⟨nftList, ⟨some (nftList, now)⟩, true⟩
    | none =>
      let g₂ := getCache g.2 now
      ⟨[],
        (match g₂.1 with
         | some d => if d.isEmpty then clearCacheState else g₂.2
         | none => g₂.2),
        true⟩

/-- A within-TTL non-empty cache state at timestamp 0. -/
def nonEmptyCacheState : NftCacheState := ⟨some ([pricedNft], 0)⟩

/-- Counterexample to C7: on upstream failure a non-empty cache entry is NOT
always preserved — a forced-refresh call clears the (within-TTL, non-empty)
entry up front, and a subsequent upstream failure leaves the cache empty. -/
theorem forced_failure_destroys_nonempty_cache :
    fetchNFTsFromMoralis 1 nonEmptyCacheState 0 true none =
      ⟨[], ⟨none⟩, true⟩ ∧
    nonEmptyCacheState.entry = some ([pricedNft], 0) ∧
    ([pricedNft] : List NftItem) ≠ [] ∧
    (0 : Nat) - 0 ≤ CACHE_DURATION := by
  refine ⟨by decide, rfl, by decide, by decide⟩

/-- Claim C7 (amended): a within-TTL cache hit — including a cached empty
list — is returned verbatim with no upstream request unless the forced-refresh
flag is set; a forced refresh clears the entry and issues an upstream request
regardless of TTL; and after a failed upstream request no cache entry remains
for the key (the force-clear or TTL expiry already removed it), so in
particular a stale empty entry never blocks a retry, while a non-empty
within-TTL entry survives only the non-forced path, where it is served from
cache and no upstream request happens at all. -/
theorem nft_cache_semantics (chainId : Nat) (st : NftCacheState)
    (d : List NftItem) (ts now : Nat) (upstream : Option (List NftItem)) :
    (st.entry = some (d, ts) → now - ts ≤ CACHE_DURATION →
      fetchNFTsFromMoralis chainId st now false upstream = ⟨d, st, false⟩) ∧
    ((fetchNFTsFromMoralis chainId st now true upstream).upstreamRequested = true) ∧
    (∀ forceRefresh,
      (fetchNFTsFromMoralis chainId st now forceRefresh none).upstreamRequested = true →
      (fetchNFTsFromMoralis chainId st now forceRefresh none).state = ⟨none⟩) := by
  refine ⟨?_, ?_, ?_⟩
  · intro hentry httl
    simp only [fetchNFTsFromMoralis, if_neg (Bool.false_ne_true), getCache, hentry,
      if_neg (by omega : ¬ CACHE_DURATION < now - ts)]
  · simp only [fetchNFTsFromMoralis, if_pos rfl, clearCacheState, getCache]
    cases upstream <;> rfl
  · intro forceRefresh
    cases forceRefresh
    · cases hentry : st.entry with
      | none =>
        intro _
        have hst : st = ⟨none⟩ := by cases st; simpa using hentry
        rw [hst]
        simp [fetchNFTsFromMoralis, getCache]
      | some p =>
        obtain ⟨d₀, ts₀⟩ := p
        by_cases httl : CACHE_DURATION < now - ts₀
        · intro _
          simp [fetchNFTsFromMoralis, getCache, hentry, httl]
        · intro hreq
          simp [fetchNFTsFromMoralis, getCache, hentry, httl] at hreq
    · intro _
      simp [fetchNFTsFromMoralis, clearCacheState, getCache]

/-- Witness for the amended C7: a within-TTL cached EMPTY list is returned
verbatim with no upstream request (the scenario of the spec), applied at a
concrete state. -/
theorem nft_cache_semantics_spot :
    fetchNFTsFromMoralis 1 ⟨some ([], 5)⟩ 10 false (some [pricedNft]) =
      ⟨[], ⟨some ([], 5)⟩, false⟩ :=
  (nft_cache_semantics 1 ⟨some ([], 5)⟩ [] 5 10 (some [pricedNft])).1 rfl (by decide)

end BatchTransfer
